import Mathlib

/-!
Shallow embedding of the skultrafast dataset core (src/skultrafast/dataset.py
and src/skultrafast/quickcontrol.py).  numpy float64 values are modelled as
exact rationals, numpy 1-d arrays as `List ℚ`, and 2-d arrays as row lists
`List (List ℚ)` (row index = time, column index = spectral channel, matching
`data.shape == (len(t), len(wl))`).  Fallible operations return
`Except PyErr _`.
-/

namespace Skultrafast

/-- Python exceptions raised by the modelled code paths.  The spec's error
taxonomy maps onto them: `shapeMismatch` is the `AssertionError` of the shape
assert in `DataSet.__init__` (the spec's ShapeMismatchError), `zeroDivision`
is the `ZeroDivisionError` raised by `np.average` when a weight slice sums to
zero, and `valueError` is the `ValueError` of `float()` on an unparsable
string or of `np.min` on an empty array. -/
inductive PyErr where
  | shapeMismatch : PyErr
  | zeroDivision : PyErr
  | valueError : PyErr

/-- Membership of x in the open interval (lower, upper): models the numpy
expression `np.logical_and(arr > lower, arr < upper)` at one element.  Both
comparisons are strict in the source. -/
def inOpen (r : ℚ × ℚ) (x : ℚ) : Bool := decide (r.1 < x) && decide (x < r.2)

/-- models the index-building loop shared by cut_freqs / cut_times /
mask_freqs / mask_times: `idx = np.zeros_like(arr, dtype=bool)` followed by
`idx ^= np.logical_and(arr > lower, arr < upper)` for every range. -/
def rangeMask (arr : List ℚ) (ranges : List (ℚ × ℚ)) : List Bool :=
  ranges.foldl (fun m r => List.zipWith xor m (arr.map (inOpen r)))
    (arr.map (fun _ => false))

/-- models the tail of the selection logic: `if not invert_sel: idx = ~idx`,
after which the True positions are the kept ones. -/
def selMask (arr : List ℚ) (ranges : List (ℚ × ℚ)) (invert_sel : Bool) :
    List Bool :=
  if invert_sel then rangeMask arr ranges else (rangeMask arr ranges).map not

/-- Boolean-mask fancy indexing `a[mask]` along one axis. -/
def maskFilter : List Bool → List α → List α
  | [], _ => []
  | _ :: _, [] => []
  | b :: ms, x :: xs => if b then x :: maskFilter ms xs else maskFilter ms xs

/-- models `np.argsort(xs)` as a stable sort of the index range by value.
np.argsort's tie order for its default kind is unspecified; the model fixes
the stable order (on distinct values the two agree). -/
def argsortQ (xs : List ℚ) : List ℕ :=
  List.insertionSort (fun i j => xs.getD i 0 ≤ xs.getD j 0)
    (List.range xs.length)

/-- Integer fancy indexing `xs[ids]`. -/
def permute (xs : List ℚ) (ids : List ℕ) : List ℚ :=
  ids.map (fun i => xs.getD i 0)

/-- Shape check of the constructor assert:
`(t.shape[0], wl.shape[0]) == data.shape` for the rectangular row list. -/
def shapeOkB (wl t : List ℚ) (data : List (List ℚ)) : Bool :=
  data.length == t.length && data.all (fun r => r.length == wl.length)

/-- Embedded `DataSet` instance state after `__init__` finished: both spectral
axes, the time axis, the signal rows, the optional error array, the optional
`name` attribute and `disp_freq_unit`.  (The `wl` alias attribute and the
plotter / index helpers carry no independent state and are omitted.) -/
structure DataSet where
  wavelengths : List ℚ
  wavenumbers : List ℚ
  t : List ℚ
  data : List (List ℚ)
  err : Option (List (List ℚ))
  name : Option String
  disp_freq_unit : String

/-- models `DataSet.__init__(wl, t, data, err, name, freq_unit,
disp_freq_unit)`: the shape assert, the unit branch computing the derived
axis by `1e7 / wl`, and the sort step `idx = np.argsort(self.wavelengths)`
that fancy-indexes `wavelengths`, `wavenumbers` and `data[:, idx]` — but not
`err`, which is stored as passed. -/
def mkDataSet (wl t : List ℚ) (data : List (List ℚ))
    (err : Option (List (List ℚ))) (name : Option String)
    (freq_unit : String) (disp_freq_unit : Option String) :
    Except PyErr DataSet :=
  if shapeOkB wl t data then
    let wavelengths0 := if freq_unit = "nm" then wl
      else wl.map (fun x => 10000000 / x)
    let wavenumbers0 := if freq_unit = "nm" then wl.map (fun x => 10000000 / x)
      else wl
    let ids := argsortQ wavelengths0
    Except.ok
      { wavelengths := permute wavelengths0 ids
        wavenumbers := permute wavenumbers0 ids
        t := t
        data := data.map (fun row => permute row ids)
        err := err
        name := name
        disp_freq_unit := disp_freq_unit.getD freq_unit }
  else Except.error PyErr.shapeMismatch

/-- models `DataSet.cut_freqs(freq_ranges, invert_sel, freq_unit)`.  The final
line passes `freq_unit` positionally into the constructor's fifth parameter,
which is `name`, so the new dataset is built with the default
`freq_unit='nm'`. -/
def cut_freqs (ds : DataSet) (freq_ranges : List (ℚ × ℚ)) (invert_sel : Bool)
    (freq_unit : String) : Except PyErr DataSet :=
  let arr := if freq_unit = "nm" then ds.wavelengths else ds.wavenumbers
  let idx := selMask arr freq_ranges invert_sel
  mkDataSet (maskFilter idx arr) ds.t (ds.data.map (maskFilter idx))
    (ds.err.map (fun e => e.map (maskFilter idx)))
    (some freq_unit) "nm" none

/-- models `DataSet.cut_times(time_ranges, invert_sel)`: rows are selected by
the same xor-accumulated mask over `self.t`, and the new dataset is built from
`self.wavelengths`, `self.t[idx]`, `self.data[idx, :]` and `err[idx, :]` with
every constructor keyword left at its default. -/
def cut_times (ds : DataSet) (time_ranges : List (ℚ × ℚ))
    (invert_sel : Bool) : Except PyErr DataSet :=
  let idx := selMask ds.t time_ranges invert_sel
  mkDataSet ds.wavelengths (maskFilter idx ds.t) (maskFilter idx ds.data)
    (ds.err.map (fun e => maskFilter idx e))
    none "nm" none

/-- Python slice `l[:n]` for a possibly negative int n. -/
def pySliceTake (n : ℤ) (l : List α) : List α :=
  if 0 ≤ n then l.take n.toNat else l.take (l.length - (-n).toNat)

/-- Column sums of a list of rows of width w (summing along axis 0). -/
def colSum (w : ℕ) (rows : List (List ℚ)) : List ℚ :=
  rows.foldl (fun acc r => List.zipWith (· + ·) acc r) (List.replicate w 0)

/-- models `np.mean(rows, 0)`: column sums divided by the number of rows.  On
an empty row list numpy yields NaN; the total model yields 0 there (rational
division by zero) and no theorem relies on that case. -/
def colMean (w : ℕ) (rows : List (List ℚ)) : List ℚ :=
  (colSum w rows).map (fun s => s / (rows.length : ℚ))

/-- models `DataSet.subtract_background(n)`:
`self.data -= np.mean(self.data[:n, :], 0, keepdims=True)` performed in place
(the model returns the updated object).  The source performs no validation of
n whatsoever and has no failure path. -/
def subtract_background (ds : DataSet) (n : ℤ) : DataSet :=
  let w := (ds.data.headD []).length
  let bg := colMean w (pySliceTake n ds.data)
  { ds with data := ds.data.map (fun r => List.zipWith (· - ·) r bg) }

/-- models `arr.min()` (numpy raises ValueError on an empty array; callers
guard the empty case). -/
def npMin : List ℚ → ℚ
  | [] => 0
  | x :: xs => xs.foldl min x

/-- models `arr.max()`. -/
def npMax : List ℚ → ℚ
  | [] => 0
  | x :: xs => xs.foldl max x

/-- models `np.linspace(a, b, n + 1)`: n + 1 points from a to b inclusive. -/
def linspace (a b : ℚ) (n : ℕ) : List ℚ :=
  (List.range (n + 1)).map (fun (i : ℕ) => a + (b - a) * (i : ℚ) / (n : ℚ))

/-- models `np.searchsorted(arr, v)` (left side) on an ascending arr: the
number of elements strictly below v.  numpy's binary search is only specified
for sorted input, which every call site in `bin_freqs` provides. -/
def searchsorted (arr : List ℚ) (v : ℚ) : ℕ :=
  arr.countP (fun x => decide (x < v))

/-- Bin boundaries of `bin_freqs`: `idx = np.searchsorted(arr, edges)` with
`edges = np.linspace(arr.min() - 0.002, arr.max() + 0.002, n + 1)`. -/
def binIdx (arr : List ℚ) (n : ℕ) : List ℕ :=
  (linspace (npMin arr - 1/500) (npMax arr + 1/500) n).map (searchsorted arr)

/-- Columns of a row that fall into bin i: `r[idx[i]:idx[i+1]]`. -/
def binSlice (arr : List ℚ) (n : ℕ) (i : ℕ) (r : List ℚ) : List ℚ :=
  (r.drop ((binIdx arr n).getD i 0)).take
    ((binIdx arr n).getD (i + 1) 0 - (binIdx arr n).getD i 0)

/-- models `np.average(xs, weights=ws)`: `sum(ws * xs) / sum(ws)`. -/
def wavg (xs ws : List ℚ) : ℚ :=
  (List.zipWith (· * ·) ws xs).sum / ws.sum

/-- models `np.mean(xs)` of a slice: sum over size (NaN on an empty slice in
numpy, 0 in the total model; no theorem relies on the empty case without
weights). -/
def npMean (xs : List ℚ) : ℚ := xs.sum / (xs.length : ℚ)

/-- Per-bin coordinate of `bin_freqs`:
`binned_wl[i] = np.mean(arr[idx[i]:idx[i+1]])`. -/
def binFreqsWl (arr : List ℚ) (n : ℕ) : List ℚ :=
  (List.range n).map (fun i => npMean (binSlice arr n i arr))

/-- Binned signal rows of `bin_freqs` when `self.err is None`: plain
`np.average` without weights. -/
def binFreqsDataU (arr : List ℚ) (n : ℕ) (data : List (List ℚ)) :
    List (List ℚ) :=
  data.map (fun r => (List.range n).map (fun i => npMean (binSlice arr n i r)))

/-- Binned signal rows of `bin_freqs` when the error array is present:
`np.average(..., weights=1/self.err[:, idx[i]:idx[i+1]])`. -/
def binFreqsDataW (arr : List ℚ) (n : ℕ) (data errA : List (List ℚ)) :
    List (List ℚ) :=
  (data.zip errA).map (fun rp =>
    (List.range n).map (fun i =>
      wavg (binSlice arr n i rp.1)
        ((binSlice arr n i rp.2).map (fun e => 1 / e))))

/-- models np.average's zero-weight guard over the whole bin loop: some bin
has a row whose reciprocal-error weights sum to zero (in particular every row
of an empty bin), which raises ZeroDivisionError. -/
def binZeroWeight (arr : List ℚ) (n : ℕ) (errA : List (List ℚ)) : Bool :=
  (List.range n).any (fun i => errA.any (fun erow =>
    decide ((((binSlice arr n i erow).map (fun e => 1 / e)).sum) = 0)))

/-- Binning axis of `bin_freqs`:
`arr = self.wavelengths if freq_unit is 'nm' else -self.wavenumbers` (the
negation makes the wavenumber array ascending). -/
def binAxis (ds : DataSet) (freq_unit : String) : List ℚ :=
  if freq_unit = "nm" then ds.wavelengths
  else ds.wavenumbers.map (fun x => -x)

/-- Spectral coordinates of the binned dataset: the per-bin means, negated
back when the bins were formed on the negated wavenumber axis. -/
def binFreqsWlFinal (ds : DataSet) (n : ℕ) (freq_unit : String) : List ℚ :=
  if freq_unit = "cm" then (binFreqsWl (binAxis ds freq_unit) n).map
    (fun x => -x)
  else binFreqsWl (binAxis ds freq_unit) n

/-- models `DataSet.bin_freqs(n, freq_unit)`: bin edges come from
`np.linspace(arr.min() - 0.002, arr.max() + 0.002, n + 1)` over the binning
axis (`np.min` of an empty axis raises ValueError), each bin is averaged
with weights `1/err` when the error array is present (`np.average` raising
ZeroDivisionError when a weight slice sums to zero, in particular on an
empty bin) and unweighted otherwise, the bin coordinate is the mean of the
member coordinates, and the result is a new `DataSet` built with the
requested freq_unit, the inherited disp_freq_unit, no error array and no
name. -/
def bin_freqs (ds : DataSet) (n : ℕ) (freq_unit : String) :
    Except PyErr DataSet :=
  if (binAxis ds freq_unit).length = 0 then Except.error PyErr.valueError
  else
    match ds.err with
    | some errA =>
      if binZeroWeight (binAxis ds freq_unit) n errA then
        Except.error PyErr.zeroDivision
      else
        mkDataSet (binFreqsWlFinal ds n freq_unit) ds.t
          (binFreqsDataW (binAxis ds freq_unit) n ds.data errA) none
          none freq_unit (some ds.disp_freq_unit)
    | none =>
      mkDataSet (binFreqsWlFinal ds n freq_unit) ds.t
        (binFreqsDataU (binAxis ds freq_unit) n ds.data) none
        none freq_unit (some ds.disp_freq_unit)

/-- models `DataSet.concat_datasets(other_ds)`: horizontal stack of the
wavelength axes and of the signal rows, rebuilt with `freq_unit='nm'` and the
first dataset's time axis and `disp_freq_unit`. -/
def concat_datasets (ds other_ds : DataSet) : Except PyErr DataSet :=
  mkDataSet (ds.wavelengths ++ other_ds.wavelengths) ds.t
    (List.zipWith (fun r s => r ++ s) ds.data other_ds.data) none
    none "nm" (some ds.disp_freq_unit)

/-! quickcontrol.py: metadata value parsing and the 2D loader. -/

/-- ASCII decimal digit test. -/
def isPyDigit (c : Char) : Bool := decide ('0' ≤ c) && decide (c ≤ '9')

/-- models `str.isnumeric()` for ASCII strings: nonempty and all digits.
(Non-ASCII Unicode numerics are outside the model.) -/
def isnumericA (s : List Char) : Bool := !s.isEmpty && s.all isPyDigit

/-- Value of a digit string. -/
def digitsToNat (s : List Char) : ℕ :=
  s.foldl (fun a c => 10 * a + (c.toNat - '0'.toNat)) 0

/-- Character set of the float branch of `parse_str`:
`set('-.0123456789E')`. -/
def floatChars : List Char :=
  ['-', '.', '0', '1', '2', '3', '4', '5', '6', '7', '8', '9', 'E']

/-- models CPython `float(s)` on strings drawn from `floatChars` (the only
strings the guarded call sites pass): optional leading minus, a mantissa of
digits with an optional point, and an optional exponent part `E`, optional
minus, digits.  Returns none exactly when `float` raises ValueError. -/
def pyFloat (s : List Char) : Option ℚ :=
  let p := match s with
    | '-' :: r => (true, r)
    | _ => (false, s)
  let d1 := p.2.takeWhile isPyDigit
  let r1 := p.2.dropWhile isPyDigit
  let mant : Option (ℚ × List Char) :=
    match r1 with
    | '.' :: r2 =>
      let d2 := r2.takeWhile isPyDigit
      let r3 := r2.dropWhile isPyDigit
      if d1.isEmpty && d2.isEmpty then none
      else some ((digitsToNat d1 : ℚ) + (digitsToNat d2 : ℚ) / 10 ^ d2.length, r3)
    | _ => if d1.isEmpty then none else some ((digitsToNat d1 : ℚ), r1)
  match mant with
  | none => none
  | some (m, rest) =>
    let v := if p.1 then -m else m
    match rest with
    | [] => some v
    | 'E' :: er =>
      let q := match er with
        | '-' :: r => (true, r)
        | _ => (false, er)
      let ed := q.2.takeWhile isPyDigit
      if ed.isEmpty then none
      else
        match q.2.dropWhile isPyDigit with
        | [] => some (v * (10 : ℚ) ^
            (if q.1 then -(digitsToNat ed : ℤ) else (digitsToNat ed : ℤ)))
        | _ => none
    | _ => none

/-- models `list(map(float, s.split(',')))`: the whole list, or the
ValueError of the first unparsable piece. -/
def floatsOf : List (List Char) → Option (List ℚ)
  | [] => some []
  | piece :: ps =>
    match pyFloat piece, floatsOf ps with
    | some q, some qs => some (q :: qs)
    | _, _ => none

/-- Result type of `parse_str`. -/
inductive PVal where
  | intV : ℤ → PVal
  | floatV : ℚ → PVal
  | floatList : List ℚ → PVal
  | boolV : Bool → PVal
  | strV : List Char → PVal

/-- models `quickcontrol.parse_str(s)`: int for `isnumeric` strings, a
`float()` attempt guarded by try/except for strings over `floatChars`, an
unguarded comma-separated float list for strings over `floatChars` plus
comma, the literals TRUE / FALSE, else the string itself. -/
def parse_str (s : List Char) : Except PyErr PVal :=
  if isnumericA s then Except.ok (PVal.intV (digitsToNat s))
  else if s.all (fun c => floatChars.contains c) then
    match pyFloat s with
    | some q => Except.ok (PVal.floatV q)
    | none => Except.ok (PVal.strV s)
  else if s.all (fun c => (',' :: floatChars).contains c) then
    match floatsOf (s.splitOn ',') with
    | some qs => Except.ok (PVal.floatList qs)
    | none => Except.error PyErr.valueError
  else if s = "TRUE".toList then Except.ok (PVal.boolV true)
  else if s = "FALSE".toList then Except.ok (PVal.boolV false)
  else Except.ok (PVal.strV s)

/-- models the loop of `QC2DSpec._loader` over waiting-time indices, with
`scans t` the number of .scan files the glob finds for index t: indices with
at least one scan are collected into the data dict; at the first index with
none, `self.t = self.t[:t+1]` is assigned and the loop breaks.  Returns the
collected indices and the resulting waiting-time axis. -/
def loaderAux (tAxis : List ℚ) (scans : ℕ → ℕ) : ℕ → ℕ → List ℕ × List ℚ
  | 0, _ => ([], tAxis)
  | fuel + 1, i =>
    if 0 < scans i then
      let p := loaderAux tAxis scans fuel (i + 1)
      (i :: p.1, p.2)
    else ([], tAxis.take (i + 1))

/-- Entry point of the `_loader` model: the loop runs over
`range(len(self.t))`. -/
def loaderT (tAxis : List ℚ) (scans : ℕ → ℕ) : List ℕ × List ℚ :=
  loaderAux tAxis scans tAxis.length 0

/-! Storage-identity model for the aliasing claim.  A stored numpy array is
modelled by an allocation id; every numpy operation that builds a new array
(arithmetic such as `1e7 / wl`, fancy indexing `x[idx]` / `x[:, idx]`,
`np.array`, `np.hstack`) draws a fresh id from a counter, while a plain
attribute assignment stores the id it was given.  Two fields alias — an
in-place mutation through one is visible through the other — exactly when
their ids are equal. -/

/-- Array identities held by one `DataSet` instance. -/
structure RDataSet where
  wlId : ℕ
  wnId : ℕ
  tId : ℕ
  dataId : ℕ
  errId : Option ℕ

/-- models `DataSet.__init__` at the storage level: the unit branch allocates
the reciprocal axis (id c), then the argsort step fancy-indexes wavelengths
(c+1), wavenumbers (c+2) and data (c+3) into fresh arrays, while `self.t = t`
and `self.err = err` store the passed ids unchanged. -/
def mkR (tA : ℕ) (errA : Option ℕ) (c : ℕ) : RDataSet × ℕ :=
  (⟨c + 1, c + 2, tA, c + 3, errA⟩, c + 4)

/-- models `cut_freqs` at the storage level: `arr[idx]` (id c) and
`self.data[:, idx]` (c+1) and `self.err[:, idx]` (c+2) are fresh; `self.t` is
passed to the constructor unchanged. -/
def cutFreqsR (ds : RDataSet) (c : ℕ) : RDataSet × ℕ :=
  mkR ds.tId (ds.errId.map (fun _ => c + 2)) (c + 3)

/-- models `cut_times` at the storage level: `self.t[idx]` (id c),
`self.data[idx, :]` (c+1) and `self.err[idx, :]` (c+2) are all fresh copies;
only `self.wavelengths` is passed through, and the constructor re-indexes it
into a fresh array anyway. -/
def cutTimesR (ds : RDataSet) (c : ℕ) : RDataSet × ℕ :=
  mkR c (ds.errId.map (fun _ => c + 2)) (c + 3)

/-- models `bin_freqs` at the storage level: `binned_wl` and `binned` are
freshly allocated, no error array is forwarded, and `self.t` is passed to the
constructor unchanged. -/
def binFreqsR (ds : RDataSet) (c : ℕ) : RDataSet × ℕ :=
  mkR ds.tId none (c + 2)

/-- models `bin_times` at the storage level: `np.array(out)` and
`np.array(out_t)` are fresh, no error array is forwarded, and the wavelength
argument is re-indexed by the constructor into a fresh array. -/
def binTimesR (_ds : RDataSet) (c : ℕ) : RDataSet × ℕ :=
  mkR c none (c + 2)

/-- models `concat_datasets` at the storage level: `np.hstack` allocates the
merged axis and data arrays, and `self.t` is passed to the constructor
unchanged. -/
def concatR (ds _other : RDataSet) (c : ℕ) : RDataSet × ℕ :=
  mkR ds.tId none (c + 2)

/-- All array ids held by a dataset. -/
def RDataSet.ids (ds : RDataSet) : List ℕ :=
  [ds.wlId, ds.wnId, ds.tId, ds.dataId] ++ ds.errId.toList

/-- No array of a is the same stored array as an array of b, so an in-place
mutation of either dataset can never change the other. -/
def NoShare (a b : RDataSet) : Prop := ∀ i ∈ a.ids, i ∉ b.ids

/-- Every id of ds was allocated before counter value c. -/
def RDataSet.below (ds : RDataSet) (c : ℕ) : Prop := ∀ i ∈ ds.ids, i < c

/-- Modelled from the spec: inverse-variance weighted average of one bin, the
weighting §4.2 prescribes for `bin_frequencies` when the error array is
present (weights `1/err²`).  The repository has no such function; this
definition exists only to compare the source's weighting against the spec's
words. -/
def invVarAvg (xs es : List ℚ) : ℚ :=
  (List.zipWith (fun x e => x / e ^ 2) xs es).sum /
    ((es.map (fun e => 1 / e ^ 2)).sum)

/-! Derived characterizations and well-formedness predicates used by the
theorem statements. -/

/-- Pointwise value of the xor-accumulated range mask at one coordinate. -/
def memXor (ranges : List (ℚ × ℚ)) (x : ℚ) : Bool :=
  ranges.foldl (fun b r => xor b (inOpen r x)) false

/-- Pointwise keep predicate of cut_freqs / cut_times: invert_sel = true
keeps the xor-accumulated set, the default invert_sel = false keeps its
complement. -/
def keepB (ranges : List (ℚ × ℚ)) (invert_sel : Bool) (x : ℚ) : Bool :=
  if invert_sel then memXor ranges x else !(memXor ranges x)

/-- Pairwise non-overlap of a list of open ranges: for any two, one ends no
later than the other starts. -/
def RangesDisjoint (R : List (ℚ × ℚ)) : Prop :=
  R.Pairwise (fun r s => r.2 ≤ s.1 ∨ s.2 ≤ r.1)

/-- Well-formedness of an embedded dataset: the derived axis has the length
of the primary one and the signal array has shape
(len(t), len(wavelengths)).  `DataSet.__init__` establishes all of it. -/
def DataSet.WF (ds : DataSet) : Prop :=
  ds.wavenumbers.length = ds.wavelengths.length ∧
  ds.data.length = ds.t.length ∧
  (∀ r ∈ ds.data, r.length = ds.wavelengths.length)

instance (ds : DataSet) : Decidable ds.WF := by
  unfold DataSet.WF
  infer_instance

/-! Concrete instances used by counterexamples and witnesses. -/

/-- Scenario A dataset of spec §8: time axis [0..4] ps, spectral axis
[500, 550, 600] nm, a 5×3 signal. -/
def dsA : DataSet :=
  ⟨[500, 550, 600], [20000, 200000/11, 50000/3], [0, 1, 2, 3, 4],
    [[1, 2, 3], [4, 5, 6], [7, 8, 9], [10, 11, 12], [13, 14, 15]],
    none, none, "nm"⟩

/-- The dataset the constructor produces from wl = [2, 1], t = [0],
data = [[5, 7]], err = [[10, 20]]: axes and signal columns are sorted by
wavelength, the error array is stored as passed. -/
def dsC3res : DataSet :=
  ⟨[1, 2], [10000000, 5000000], [0], [[7, 5]], some [[10, 20]], none, "nm"⟩

/-- Two-channel dataset with an error array, used to compare the binning
weights of the source against the spec's inverse-variance weights. -/
def dsC4 : DataSet :=
  ⟨[1, 2], [10000000, 5000000], [0], [[0, 1]], some [[1, 2]], none, "nm"⟩

/-- Single-channel five-row dataset for the background-subtraction claim. -/
def dsC6 : DataSet :=
  ⟨[500], [20000], [0, 1, 2, 3, 4], [[1], [2], [3], [4], [5]],
    none, none, "nm"⟩

/-- Storage-id dataset whose five arrays carry ids 0..4. -/
def rdsEx : RDataSet := ⟨0, 1, 2, 3, some 4⟩

/-- Scan-count function of the truncation counterexample: waiting-time index
0 has one scan, every later index has none. -/
def scansEx (i : ℕ) : ℕ := if i = 0 then 1 else 0

/-! Helper lemmas about the list machinery of the embedding. -/

theorem zipWith_map_same (f : β → β → δ) (g h : α → β) (l : List α) :
    List.zipWith f (l.map g) (l.map h) = l.map (fun x => f (g x) (h x)) := by
  rw [List.zipWith_map, List.zipWith_same]

theorem rangeMask_eq_map (arr : List ℚ) (R : List (ℚ × ℚ)) :
    rangeMask arr R = arr.map (memXor R) := by
  have key : ∀ (S : List (ℚ × ℚ)) (f : ℚ → Bool),
      List.foldl (fun m r => List.zipWith xor m (arr.map (inOpen r)))
        (arr.map f) S
        = arr.map (fun x =>
            List.foldl (fun b r => xor b (inOpen r x)) (f x) S) := by
    intro S
    induction S with
    | nil => intro f; simp
    | cons r rs ih =>
      intro f
      simp only [List.foldl_cons]
      rw [zipWith_map_same, ih]
  exact key R (fun _ => false)

theorem selMask_eq_map (arr : List ℚ) (R : List (ℚ × ℚ)) (inv : Bool) :
    selMask arr R inv = arr.map (keepB R inv) := by
  cases inv <;>
    simp [selMask, keepB, rangeMask_eq_map, List.map_map, Function.comp_def]

theorem maskFilter_map_filter (p : α → Bool) (l : List α) :
    maskFilter (l.map p) l = l.filter p := by
  induction l with
  | nil => rfl
  | cons x xs ih =>
    cases hp : p x <;> simp [maskFilter, hp, ih, List.filter_cons]

theorem maskFilter_map_zip (p : α → Bool) :
    ∀ (l : List α) (ys : List β), l.length = ys.length →
      maskFilter (l.map p) ys
        = ((l.zip ys).filter (fun q => p q.1)).map Prod.snd := by
  intro l
  induction l with
  | nil =>
    intro ys h
    cases ys with
    | nil => rfl
    | cons y ys => simp at h
  | cons x xs ih =>
    intro ys h
    cases ys with
    | nil => simp at h
    | cons y ys =>
      have h' : xs.length = ys.length := by simpa using h
      cases hp : p x <;>
        simp [maskFilter, hp, List.filter_cons, ih ys h']

theorem maskFilter_length_eq :
    ∀ (m : List Bool) (xs : List α) (ys : List β), xs.length = ys.length →
      (maskFilter m xs).length = (maskFilter m ys).length := by
  intro m
  induction m with
  | nil =>
    intro xs ys _
    cases xs <;> cases ys <;> simp [maskFilter]
  | cons b ms ih =>
    intro xs ys h
    cases xs with
    | nil => cases ys with
      | nil => rfl
      | cons y ys => simp at h
    | cons x xs =>
      cases ys with
      | nil => simp at h
      | cons y ys =>
        have h' : xs.length = ys.length := by simpa using h
        cases b <;> simp [maskFilter, ih xs ys h']

theorem argsortQ_perm (xs : List ℚ) :
    (argsortQ xs).Perm (List.range xs.length) :=
  List.perm_insertionSort _ _

theorem length_permute (xs : List ℚ) (ids : List ℕ) :
    (permute xs ids).length = ids.length :=
  List.length_map _ _

theorem permute_range {n : ℕ} (l : List ℚ) (h : l.length = n) :
    permute l (List.range n) = l := by
  apply List.ext_getElem
  · simp [permute, h]
  · intro i h1 h2
    have hi : i < n := by simpa [permute] using h1
    simp only [permute, List.getElem_map, List.getElem_range]
    exact List.getD_eq_getElem l 0 (h ▸ hi)

theorem permute_perm {xs : List ℚ} {ids : List ℕ}
    (h : ids.Perm (List.range xs.length)) : (permute xs ids).Perm xs := by
  have h2 := h.map (fun i => xs.getD i 0)
  have h3 : List.map (fun i => xs.getD i 0) (List.range xs.length) = xs :=
    permute_range xs rfl
  rw [h3] at h2
  exact h2

theorem sorted_permute_argsortQ (xs : List ℚ) :
    (permute xs (argsortQ xs)).Sorted (· ≤ ·) := by
  haveI t1 : IsTotal ℕ (fun i j => xs.getD i 0 ≤ xs.getD j 0) :=
    ⟨fun a b => le_total _ _⟩
  haveI t2 : IsTrans ℕ (fun i j => xs.getD i 0 ≤ xs.getD j 0) :=
    ⟨fun _ _ _ hab hbc => le_trans hab hbc⟩
  have h := List.sorted_insertionSort
    (fun i j => xs.getD i 0 ≤ xs.getD j 0) (List.range xs.length)
  exact List.Pairwise.map _ (fun _ _ hr => hr) h

theorem argsortQ_of_sorted {xs : List ℚ} (h : xs.Sorted (· ≤ ·)) :
    argsortQ xs = List.range xs.length := by
  apply List.Sorted.insertionSort_eq
  rw [List.Sorted, List.pairwise_iff_getElem]
  intro i j hi hj hij
  simp only [List.length_range] at hi hj
  simp only [List.getElem_range]
  rw [List.getD_eq_getElem xs 0 hi, List.getD_eq_getElem xs 0 hj]
  exact List.pairwise_iff_getElem.mp h i j hi hj hij

theorem permute_argsortQ_of_sorted {xs : List ℚ} (h : xs.Sorted (· ≤ ·))
    (l : List ℚ) (hl : l.length = xs.length) :
    permute l (argsortQ xs) = l := by
  rw [argsortQ_of_sorted h, permute_range l hl]

theorem shapeOkB_iff {wl t : List ℚ} {data : List (List ℚ)} :
    shapeOkB wl t data = true ↔
      (data.length = t.length ∧ ∀ r ∈ data, r.length = wl.length) := by
  simp [shapeOkB, List.all_eq_true]

theorem mkDataSet_ok_inv {wl t : List ℚ} {data : List (List ℚ)}
    {err : Option (List (List ℚ))} {name : Option String} {fu : String}
    {du : Option String} {d : DataSet}
    (h : mkDataSet wl t data err name fu du = Except.ok d) :
    ∃ ids : List ℕ, ids.Perm (List.range wl.length) ∧
      d.wavelengths = permute (if fu = "nm" then wl
        else wl.map (fun x => 10000000 / x)) ids ∧
      d.wavenumbers = permute (if fu = "nm" then wl.map (fun x => 10000000 / x)
        else wl) ids ∧
      d.t = t ∧
      d.data = data.map (fun row => permute row ids) ∧
      d.err = err ∧ d.name = name ∧
      d.disp_freq_unit = du.getD fu ∧
      d.wavelengths.Sorted (· ≤ ·) := by
  unfold mkDataSet at h
  by_cases hb : shapeOkB wl t data = true
  · rw [if_pos hb] at h
    simp only [Except.ok.injEq] at h
    subst h
    refine ⟨argsortQ (if fu = "nm" then wl
      else wl.map (fun x => 10000000 / x)), ?_, rfl, ?_, rfl, rfl, rfl, rfl,
      rfl, ?_⟩
    · have := argsortQ_perm (if fu = "nm" then wl
        else wl.map (fun x => 10000000 / x))
      by_cases hfu : fu = "nm" <;> simpa [hfu] using this
    · by_cases hfu : fu = "nm" <;> simp [hfu]
    · by_cases hfu : fu = "nm" <;>
        simpa [hfu] using sorted_permute_argsortQ
          (if fu = "nm" then wl else wl.map (fun x => 10000000 / x))
  · rw [if_neg hb] at h
    exact absurd h (by simp)

theorem mkDataSet_sorted_nm {wl t : List ℚ} {data : List (List ℚ)}
    {err : Option (List (List ℚ))} {name : Option String} {du : Option String}
    (hs : wl.Sorted (· ≤ ·)) (hshape : shapeOkB wl t data = true) :
    mkDataSet wl t data err name "nm" du =
      Except.ok ⟨wl, wl.map (fun x => 10000000 / x), t, data, err, name,
        du.getD "nm"⟩ := by
  obtain ⟨-, hrows⟩ := shapeOkB_iff.mp hshape
  have hdata : data.map (fun row => permute row (List.range wl.length))
      = data := by
    conv_rhs => rw [← List.map_id data]
    exact List.map_congr_left (fun r hr => permute_range r (hrows r hr))
  unfold mkDataSet
  rw [if_pos hshape]
  simp only [reduceIte]
  rw [argsortQ_of_sorted hs]
  rw [permute_range wl rfl, permute_range _ (List.length_map wl _), hdata]

/-- C2: constructing a dataset whose signal shape differs from
(len(t), len(wl)) fails — the constructor's assert raises (the spec's
ShapeMismatchError) — and no dataset is produced. -/
theorem C2_shape_check (wl t : List ℚ) (data : List (List ℚ))
    (err : Option (List (List ℚ))) (name : Option String)
    (fu : String) (du : Option String)
    (h : ¬ (data.length = t.length ∧ ∀ r ∈ data, r.length = wl.length)) :
    mkDataSet wl t data err name fu du = Except.error PyErr.shapeMismatch := by
  have hb : ¬ (shapeOkB wl t data = true) := fun hc => h (shapeOkB_iff.mp hc)
  unfold mkDataSet
  rw [if_neg hb]

/-- Witness for C2 at a concrete ill-shaped input: one spectral channel and
one delay time against a 1×2 signal. -/
theorem C2_shape_check_witness :
    mkDataSet [1] [0] [[1, 2]] none none "nm" none =
      Except.error PyErr.shapeMismatch :=
  C2_shape_check [1] [0] [[1, 2]] none none "nm" none (by
    intro hc
    have := hc.2 [1, 2] (by simp)
    simp at this)

/-- C3 counterexample: from wl = [2, 1], data = [[5, 7]] and
err = [[10, 20]] the constructor sorts the axes and the signal columns but
stores the error array as passed, so the error columns are NOT permuted
identically (that would have produced [[20, 10]]). -/
theorem C3_err_not_permuted :
    mkDataSet [2, 1] [0] [[5, 7]] (some [[10, 20]]) none "nm" none =
        Except.ok dsC3res ∧
      dsC3res.err ≠ some [[20, 10]] := by
  constructor
  · norm_num [mkDataSet, shapeOkB, argsortQ, permute, dsC3res,
      List.insertionSort, List.orderedInsert, List.range, List.range.loop]
  · norm_num [dsC3res]

/-- C3 as amended: after construction the wavelength axis is sorted
ascending and one and the same index permutation is applied to the
wavelength axis, the wavenumber axis and the signal columns — but the error
array is stored exactly as passed, not permuted, and the tie order of the
sort is that of np.argsort (unspecified for equal wavelengths; stable in
this model). -/
theorem C3_sort_applied_uniformly (wl t : List ℚ) (data : List (List ℚ))
    (err : Option (List (List ℚ))) (name : Option String) (fu : String)
    (du : Option String) (d : DataSet)
    (h : mkDataSet wl t data err name fu du = Except.ok d) :
    d.wavelengths.Sorted (· ≤ ·) ∧
      ∃ ids : List ℕ, ids.Perm (List.range wl.length) ∧
        d.wavelengths = permute (if fu = "nm" then wl
          else wl.map (fun x => 10000000 / x)) ids ∧
        d.wavenumbers = permute (if fu = "nm" then wl.map
          (fun x => 10000000 / x) else wl) ids ∧
        d.data = data.map (fun row => permute row ids) ∧
        d.err = err := by
  obtain ⟨ids, hperm, hwl, hwn, -, hdata, herr, -, -, hsorted⟩ :=
    mkDataSet_ok_inv h
  exact ⟨hsorted, ids, hperm, hwl, hwn, hdata, herr⟩

/-- Witness for C3 at the concrete constructor call of the counterexample. -/
theorem C3_sort_applied_uniformly_witness :
    dsC3res.wavelengths.Sorted (· ≤ ·) ∧
      ∃ ids : List ℕ, ids.Perm (List.range ([(2 : ℚ), 1]).length) ∧
        dsC3res.wavelengths = permute (if "nm" = "nm" then [(2 : ℚ), 1]
          else [(2 : ℚ), 1].map (fun x => 10000000 / x)) ids ∧
        dsC3res.wavenumbers = permute (if "nm" = "nm" then [(2 : ℚ), 1].map
          (fun x => 10000000 / x) else [(2 : ℚ), 1]) ids ∧
        dsC3res.data = [[(5 : ℚ), 7]].map (fun row => permute row ids) ∧
        dsC3res.err = some [[10, 20]] :=
  C3_sort_applied_uniformly [2, 1] [0] [[5, 7]] (some [[10, 20]]) none
    "nm" none dsC3res (by
      norm_num [mkDataSet, shapeOkB, argsortQ, permute, dsC3res,
        List.insertionSort, List.orderedInsert, List.range, List.range.loop])

theorem maskFilter_mem :
    ∀ {m : List Bool} {xs : List α} {x : α}, x ∈ maskFilter m xs → x ∈ xs := by
  intro m
  induction m with
  | nil => intro xs x hx; simp [maskFilter] at hx
  | cons b ms ih =>
    intro xs x hx
    cases xs with
    | nil => simp [maskFilter] at hx
    | cons y ys =>
      cases b with
      | true =>
        have hx2 : x ∈ y :: maskFilter ms ys := by simpa [maskFilter] using hx
        rcases List.mem_cons.mp hx2 with h1 | h1
        · exact List.mem_cons.mpr (Or.inl h1)
        · exact List.mem_cons_of_mem _ (ih h1)
      | false =>
        have hx2 : x ∈ maskFilter ms ys := by simpa [maskFilter] using hx
        exact List.mem_cons_of_mem _ (ih hx2)

theorem getD_map_zero (f : ℚ → ℚ) (hf : f 0 = 0) (l : List ℚ) (i : ℕ) :
    (l.map f).getD i 0 = f (l.getD i 0) := by
  by_cases hi : i < l.length
  · rw [List.getD_eq_getElem _ _ (by simpa using hi), List.getD_eq_getElem _ _ hi,
      List.getElem_map]
  · rw [List.getD_eq_default _ _ (by simpa using le_of_not_lt hi),
      List.getD_eq_default _ _ (le_of_not_lt hi), hf]

theorem permute_map (f : ℚ → ℚ) (hf : f 0 = 0) (l : List ℚ) (ids : List ℕ) :
    permute (l.map f) ids = (permute l ids).map f := by
  simp only [permute, List.map_map]
  exact List.map_congr_left (fun i _ => getD_map_zero f hf l i)

theorem keepB_false_eq_not (R : List (ℚ × ℚ)) (x : ℚ) :
    keepB R false x = !(keepB R true x) := by
  simp [keepB]

/-- Characterization of `cut_freqs` on a well-formed dataset: it succeeds,
the requested unit string lands in the `name` attribute while the new
dataset is built as 'nm', and the kept wavelength values are exactly the
coordinates of the selection axis passing the xor-accumulated keep
predicate, re-sorted ascending by the constructor. -/
theorem cut_freqs_ok (ds : DataSet) (R : List (ℚ × ℚ)) (inv : Bool)
    (u : String) (hWF : ds.WF) :
    ∃ d, cut_freqs ds R inv u = Except.ok d ∧
      d.name = some u ∧ d.disp_freq_unit = "nm" ∧
      d.wavelengths.Perm
        ((if u = "nm" then ds.wavelengths else ds.wavenumbers).filter
          (keepB R inv)) ∧
      d.wavelengths.Sorted (· ≤ ·) ∧
      d.wavenumbers = d.wavelengths.map (fun x => 10000000 / x) ∧
      d.t = ds.t := by
  obtain ⟨hwn, hlen, hrows⟩ := hWF
  set arr := if u = "nm" then ds.wavelengths else ds.wavenumbers with harr
  have harrlen : arr.length = ds.wavelengths.length := by
    by_cases hu : u = "nm" <;> simp [harr, hu, hwn]
  set mask := selMask arr R inv with hmask
  have hshape : shapeOkB (maskFilter mask arr) ds.t
      (ds.data.map (maskFilter mask)) = true := by
    rw [shapeOkB_iff]
    constructor
    · simpa using hlen
    · intro r hr
      obtain ⟨r0, hr0, rfl⟩ := List.mem_map.mp hr
      exact maskFilter_length_eq mask r0 arr ((hrows r0 hr0).trans harrlen.symm)
  have hd : cut_freqs ds R inv u = mkDataSet (maskFilter mask arr) ds.t
      (ds.data.map (maskFilter mask))
      (ds.err.map (fun e => e.map (maskFilter mask)))
      (some u) "nm" none := rfl
  have hok : ∃ d, mkDataSet (maskFilter mask arr) ds.t
      (ds.data.map (maskFilter mask))
      (ds.err.map (fun e => e.map (maskFilter mask)))
      (some u) "nm" none = Except.ok d := by
    unfold mkDataSet
    rw [if_pos hshape]
    exact ⟨_, rfl⟩
  obtain ⟨d, hdok⟩ := hok
  obtain ⟨ids, hperm, hwl, hwnok, ht, -, -, hname, hdisp, hsorted⟩ :=
    mkDataSet_ok_inv hdok
  have hfilter : maskFilter mask arr = arr.filter (keepB R inv) := by
    rw [hmask, selMask_eq_map, maskFilter_map_filter]
  refine ⟨d, hd.trans hdok, hname, by simpa using hdisp, ?_, hsorted, ?_, ht⟩
  · rw [hwl]
    simp only [if_pos rfl]
    have := @permute_perm (maskFilter mask arr) _ hperm
    rw [hfilter] at this ⊢
    exact this
  · rw [hwnok, hwl]
    simp only [if_pos rfl]
    exact permute_map _ (by norm_num) _ _

/-- Characterization of `cut_times` on a well-formed dataset whose
wavelength axis is already sorted: rows are kept exactly where the time
coordinate passes the xor-accumulated keep predicate, in their original
order, with the spectral axis untouched. -/
theorem cut_times_spec (ds : DataSet) (R : List (ℚ × ℚ)) (inv : Bool)
    (hWF : ds.WF) (hs : ds.wavelengths.Sorted (· ≤ ·)) :
    cut_times ds R inv = Except.ok
      ⟨ds.wavelengths, ds.wavelengths.map (fun x => 10000000 / x),
        ds.t.filter (keepB R inv),
        ((ds.t.zip ds.data).filter (fun q => keepB R inv q.1)).map Prod.snd,
        ds.err.map (fun e => maskFilter (selMask ds.t R inv) e),
        none, "nm"⟩ := by
  obtain ⟨hwn, hlen, hrows⟩ := hWF
  set mask := selMask ds.t R inv with hmask
  have hshape : shapeOkB ds.wavelengths (maskFilter mask ds.t)
      (maskFilter mask ds.data) = true := by
    rw [shapeOkB_iff]
    constructor
    · exact maskFilter_length_eq mask ds.data ds.t hlen
    · exact fun r hr => hrows r (maskFilter_mem hr)
  have hd : cut_times ds R inv = mkDataSet ds.wavelengths
      (maskFilter mask ds.t) (maskFilter mask ds.data)
      (ds.err.map (fun e => maskFilter mask e)) none "nm" none := rfl
  rw [hd, mkDataSet_sorted_nm hs hshape]
  have hT : maskFilter mask ds.t = ds.t.filter (keepB R inv) := by
    rw [hmask, selMask_eq_map, maskFilter_map_filter]
  have hD : maskFilter mask ds.data =
      ((ds.t.zip ds.data).filter (fun q => keepB R inv q.1)).map Prod.snd := by
    rw [hmask, selMask_eq_map, maskFilter_map_zip _ ds.t ds.data hlen.symm]
  rw [hT, hD]
  rfl

/-- C1 counterexample: on the §8 scenario dataset with time axis
[0, 1, 2, 3, 4], `cut_times([(1, 3)])` with the default invert flag keeps
the rows at t = 0, 1, 3, 4 — the complement of the open interval — and not
the rows at t = 1, 2, 3 the claim names. -/
theorem C1_counterexample :
    Except.map DataSet.t (cut_times dsA [((1 : ℚ), 3)] false) =
        Except.ok [0, 1, 3, 4] ∧
      ([(0 : ℚ), 1, 3, 4] : List ℚ) ≠ [1, 2, 3] := by
  constructor
  · rw [cut_times_spec dsA [((1 : ℚ), 3)] false (by decide) (by decide)]
    rfl
  · norm_num

/-- C1 as amended: the selection, both spectral and temporal, keeps the
xor-accumulation of the open intervals (lower, upper) when invert_sel is
true, and its complement under the default invert_sel = false (for pairwise
disjoint ranges the xor-accumulation is their union); on the §8 scenario,
select_time_ranges([(1, 3)]) keeps t = 0, 1, 3, 4 by default and t = 2 when
inverted. -/
theorem C1_select_semantics (ds : DataSet) (R : List (ℚ × ℚ)) (inv : Bool)
    (u : String) (hWF : ds.WF) (hs : ds.wavelengths.Sorted (· ≤ ·)) :
    (∃ d, cut_times ds R inv = Except.ok d ∧
        d.t = ds.t.filter (keepB R inv) ∧
        d.data = ((ds.t.zip ds.data).filter
          (fun q => keepB R inv q.1)).map Prod.snd ∧
        d.wavelengths = ds.wavelengths) ∧
    (∃ d, cut_freqs ds R inv u = Except.ok d ∧
        d.wavelengths.Perm
          ((if u = "nm" then ds.wavelengths else ds.wavenumbers).filter
            (keepB R inv))) ∧
    Except.map DataSet.t (cut_times dsA [((1 : ℚ), 3)] false) =
      Except.ok [0, 1, 3, 4] ∧
    Except.map DataSet.t (cut_times dsA [((1 : ℚ), 3)] true) =
      Except.ok [2] := by
  refine ⟨⟨_, cut_times_spec ds R inv hWF hs, rfl, rfl, rfl⟩, ?_, ?_, ?_⟩
  · obtain ⟨d, hok, -, -, hpermd, -, -, -⟩ := cut_freqs_ok ds R inv u hWF
    exact ⟨d, hok, hpermd⟩
  · rw [cut_times_spec dsA [((1 : ℚ), 3)] false (by decide) (by decide)]
    rfl
  · rw [cut_times_spec dsA [((1 : ℚ), 3)] true (by decide) (by decide)]
    rfl

/-- Witness for C1 at the scenario dataset with the single range (1, 3). -/
theorem C1_select_semantics_witness :
    (∃ d, cut_times dsA [((1 : ℚ), 3)] false = Except.ok d ∧
        d.t = dsA.t.filter (keepB [((1 : ℚ), 3)] false) ∧
        d.data = ((dsA.t.zip dsA.data).filter
          (fun q => keepB [((1 : ℚ), 3)] false q.1)).map Prod.snd ∧
        d.wavelengths = dsA.wavelengths) ∧
    (∃ d, cut_freqs dsA [((1 : ℚ), 3)] false "nm" = Except.ok d ∧
        d.wavelengths.Perm
          ((if "nm" = "nm" then dsA.wavelengths else dsA.wavenumbers).filter
            (keepB [((1 : ℚ), 3)] false))) ∧
    Except.map DataSet.t (cut_times dsA [((1 : ℚ), 3)] false) =
      Except.ok [0, 1, 3, 4] ∧
    Except.map DataSet.t (cut_times dsA [((1 : ℚ), 3)] true) =
      Except.ok [2] :=
  C1_select_semantics dsA [((1 : ℚ), 3)] false "nm" (by decide) (by decide)

instance (R : List (ℚ × ℚ)) : Decidable (RangesDisjoint R) := by
  unfold RangesDisjoint
  infer_instance

/-- C8: for pairwise non-overlapping ranges (indeed for any ranges), the
columns kept by the inverted selection and those kept by the default
selection together are exactly the original columns — the two keep
predicates are pointwise complementary, so the two wavelength multisets
concatenate to a permutation of the full axis and no coordinate satisfies
both predicates. -/
theorem C8_complement_partition (ds : DataSet) (R : List (ℚ × ℚ))
    (u : String) (hWF : ds.WF) (_hdisj : RangesDisjoint R) :
    ∃ dT dF, cut_freqs ds R true u = Except.ok dT ∧
      cut_freqs ds R false u = Except.ok dF ∧
      (dT.wavelengths ++ dF.wavelengths).Perm
        (if u = "nm" then ds.wavelengths else ds.wavenumbers) ∧
      ∀ x : ℚ, ¬ (keepB R true x = true ∧ keepB R false x = true) := by
  obtain ⟨dT, hT, -, -, hpT, -, -, -⟩ := cut_freqs_ok ds R true u hWF
  obtain ⟨dF, hF, -, -, hpF, -, -, -⟩ := cut_freqs_ok ds R false u hWF
  refine ⟨dT, dF, hT, hF, ?_, ?_⟩
  · have hcong : (if u = "nm" then ds.wavelengths else ds.wavenumbers).filter
        (keepB R false)
        = (if u = "nm" then ds.wavelengths else ds.wavenumbers).filter
          (fun x => !(keepB R true x)) :=
      List.filter_congr (fun x _ => keepB_false_eq_not R x)
    rw [hcong] at hpF
    exact (hpT.append hpF).trans (List.filter_append_perm (keepB R true) _)
  · intro x hx
    rw [keepB_false_eq_not] at hx
    rw [hx.1] at hx
    simp at hx

/-- Witness for C8 on the scenario dataset with two disjoint ranges. -/
theorem C8_complement_partition_witness :
    ∃ dT dF, cut_freqs dsA [((520 : ℚ), 560), (580, 590)] true "nm" =
        Except.ok dT ∧
      cut_freqs dsA [((520 : ℚ), 560), (580, 590)] false "nm" =
        Except.ok dF ∧
      (dT.wavelengths ++ dF.wavelengths).Perm
        (if "nm" = "nm" then dsA.wavelengths else dsA.wavenumbers) ∧
      ∀ x : ℚ, ¬ (keepB [((520 : ℚ), 560), (580, 590)] true x = true ∧
        keepB [((520 : ℚ), 560), (580, 590)] false x = true) :=
  C8_complement_partition dsA [((520 : ℚ), 560), (580, 590)] "nm"
    (by decide) (by decide)

/-- C10: cut_freqs forwards its freq_unit argument positionally into the
constructor's name parameter, so the result is built with the default unit
'nm': called with 'cm', the kept wavenumber coordinates become the new
dataset's wavelengths (sorted ascending by the constructor), its wavenumbers
are 1e7 over those values, and its name attribute is the unit string. -/
theorem C10_cut_freqs_unit_bug (ds : DataSet) (R : List (ℚ × ℚ)) (inv : Bool)
    (hWF : ds.WF) :
    ∃ d, cut_freqs ds R inv "cm" = Except.ok d ∧
      d.name = some "cm" ∧
      d.disp_freq_unit = "nm" ∧
      d.wavelengths.Perm (ds.wavenumbers.filter (keepB R inv)) ∧
      d.wavelengths.Sorted (· ≤ ·) ∧
      d.wavenumbers = d.wavelengths.map (fun x => 10000000 / x) := by
  obtain ⟨d, hok, hname, hdisp, hperm, hsort, hwn, -⟩ :=
    cut_freqs_ok ds R inv "cm" hWF
  have hif : (if ("cm" : String) = "nm" then ds.wavelengths
      else ds.wavenumbers) = ds.wavenumbers := if_neg (by decide)
  rw [hif] at hperm
  exact ⟨d, hok, hname, hdisp, hperm, hsort, hwn⟩

/-- Witness for C10 on the scenario dataset with the wavenumber range
(19000, 21000). -/
theorem C10_cut_freqs_unit_bug_witness :
    ∃ d, cut_freqs dsA [((19000 : ℚ), 21000)] false "cm" = Except.ok d ∧
      d.name = some "cm" ∧
      d.disp_freq_unit = "nm" ∧
      d.wavelengths.Perm
        (dsA.wavenumbers.filter (keepB [((19000 : ℚ), 21000)] false)) ∧
      d.wavelengths.Sorted (· ≤ ·) ∧
      d.wavenumbers = d.wavelengths.map (fun x => 10000000 / x) :=
  C10_cut_freqs_unit_bug dsA [((19000 : ℚ), 21000)] false (by decide)

theorem getD_zipWith_add (a b : List ℚ) (c : ℕ) (hca : c < a.length)
    (hcb : c < b.length) :
    (List.zipWith (· + ·) a b).getD c 0 = a.getD c 0 + b.getD c 0 := by
  have hlz : c < (List.zipWith (· + ·) a b).length := by
    rw [List.length_zipWith]
    exact lt_min hca hcb
  rw [List.getD_eq_getElem _ _ hlz, List.getElem_zipWith,
    List.getD_eq_getElem _ _ hca, List.getD_eq_getElem _ _ hcb]

theorem getD_zipWith_sub (a b : List ℚ) (c : ℕ) (hca : c < a.length)
    (hcb : c < b.length) :
    (List.zipWith (· - ·) a b).getD c 0 = a.getD c 0 - b.getD c 0 := by
  have hlz : c < (List.zipWith (· - ·) a b).length := by
    rw [List.length_zipWith]
    exact lt_min hca hcb
  rw [List.getD_eq_getElem _ _ hlz, List.getElem_zipWith,
    List.getD_eq_getElem _ _ hca, List.getD_eq_getElem _ _ hcb]

theorem colSum_foldl_length (w : ℕ) :
    ∀ (rows : List (List ℚ)) (acc : List ℚ), acc.length = w →
      (∀ r ∈ rows, r.length = w) →
      (rows.foldl (fun a r => List.zipWith (· + ·) a r) acc).length = w := by
  intro rows
  induction rows with
  | nil => intro acc hacc _; simpa using hacc
  | cons r rs ih =>
    intro acc hacc hlen
    simp only [List.foldl_cons]
    exact ih _ (by rw [List.length_zipWith, hacc, hlen r (by simp)]; simp)
      (fun s hs => hlen s (List.mem_cons_of_mem _ hs))

theorem colSum_foldl_getD (c : ℕ) :
    ∀ (rows : List (List ℚ)) (acc : List ℚ), c < acc.length →
      (∀ r ∈ rows, r.length = acc.length) →
      (rows.foldl (fun a r => List.zipWith (· + ·) a r) acc).getD c 0
        = acc.getD c 0 + (rows.map (fun r => r.getD c 0)).sum := by
  intro rows
  induction rows with
  | nil => intro acc _ _; simp
  | cons r rs ih =>
    intro acc hc hlen
    simp only [List.foldl_cons, List.map_cons, List.sum_cons]
    have hrl : r.length = acc.length := hlen r (by simp)
    have hzl : (List.zipWith (· + ·) acc r).length = acc.length := by
      rw [List.length_zipWith, hrl]; simp
    rw [ih (List.zipWith (· + ·) acc r) (by rw [hzl]; exact hc)
      (fun s hs => by rw [hzl]; exact hlen s (List.mem_cons_of_mem _ hs))]
    rw [getD_zipWith_add acc r c hc (hrl ▸ hc)]
    ring

theorem colMean_getD (w : ℕ) (rows : List (List ℚ)) (c : ℕ) (hc : c < w)
    (hrows : ∀ r ∈ rows, r.length = w) :
    (colMean w rows).getD c 0
      = (rows.map (fun r => r.getD c 0)).sum / (rows.length : ℚ) := by
  unfold colMean colSum
  rw [getD_map_zero (fun s => s / (rows.length : ℚ)) (zero_div _) _ c]
  rw [colSum_foldl_getD c rows (List.replicate w 0) (by simpa using hc)
    (fun r hr => by simpa using hrows r hr)]
  rw [List.getD_eq_getElem _ _ (by simpa using hc), List.getElem_replicate]
  simp

/-- C6 counterexample: dsC6 has five delay times, yet subtract_background(7)
does not fail — the source validates nothing — and the data is changed (the
mean of all five rows is subtracted), so the dataset is not left unchanged
either. -/
theorem C6_counterexample :
    (subtract_background dsC6 7).data = [[-2], [-1], [0], [1], [2]] ∧
      (subtract_background dsC6 7).data ≠ dsC6.data := by
  constructor
  · norm_num [subtract_background, dsC6, pySliceTake, colMean, colSum,
      show (7 : ℤ).toNat = 7 from rfl, List.take_succ_cons]
  · norm_num [subtract_background, dsC6, pySliceTake, colMean, colSum,
      show (7 : ℤ).toNat = 7 from rfl, List.take_succ_cons]

/-- C6 as amended: subtract_background validates nothing and never fails;
for any n ≥ 1 — including n larger than the time-axis length — it leaves
axes and error untouched and subtracts from every signal entry the column
mean of the first min(n, len) rows. -/
theorem C6_subtract_background (ds : DataSet) (n : ℤ) (hn : 1 ≤ n)
    (hWF : ds.WF) (hne : ds.data ≠ []) (j c : ℕ) (hj : j < ds.data.length)
    (hc : c < ds.wavelengths.length) :
    (subtract_background ds n).t = ds.t ∧
    (subtract_background ds n).wavelengths = ds.wavelengths ∧
    (subtract_background ds n).err = ds.err ∧
    ((subtract_background ds n).data.getD j []).getD c 0
      = (ds.data.getD j []).getD c 0
        - ((ds.data.take n.toNat).map (fun r => r.getD c 0)).sum
          / ((min n.toNat ds.data.length : ℕ) : ℚ) := by
  obtain ⟨-, -, hrows⟩ := hWF
  have hw : (ds.data.headD []).length = ds.wavelengths.length := by
    cases hd : ds.data with
    | nil => exact absurd hd hne
    | cons r rs => exact hrows r (by rw [hd]; simp)
  have hslice : pySliceTake n ds.data = ds.data.take n.toNat := by
    unfold pySliceTake
    rw [if_pos (by omega)]
  refine ⟨rfl, rfl, rfl, ?_⟩
  have hjrow : ds.data[j].length = ds.wavelengths.length :=
    hrows _ (List.getElem_mem hj)
  have hmemlen : ∀ r ∈ pySliceTake n ds.data,
      r.length = (ds.data.headD []).length := by
    intro r hr
    rw [hslice] at hr
    rw [hw]
    exact hrows r (List.mem_of_mem_take hr)
  have hbglen : (colMean (ds.data.headD []).length
      (pySliceTake n ds.data)).length = ds.wavelengths.length := by
    unfold colMean colSum
    rw [List.length_map]
    rw [colSum_foldl_length _ _ _ (List.length_replicate _ _) hmemlen, hw]
  have hmain : (subtract_background ds n).data
      = ds.data.map (fun r => List.zipWith (· - ·) r
          (colMean (ds.data.headD []).length (pySliceTake n ds.data))) := rfl
  rw [hmain]
  have h1 : (ds.data.map (fun r => List.zipWith (· - ·) r
      (colMean (ds.data.headD []).length (pySliceTake n ds.data)))).getD j []
      = List.zipWith (· - ·) ds.data[j]
          (colMean (ds.data.headD []).length (pySliceTake n ds.data)) := by
    rw [List.getD_eq_getElem _ _ (by simpa using hj), List.getElem_map]
  rw [h1]
  rw [getD_zipWith_sub _ _ c (by rw [hjrow]; exact hc)
    (by rw [hbglen]; exact hc)]
  rw [colMean_getD _ _ c (by rw [hw]; exact hc) hmemlen]
  rw [List.getD_eq_getElem _ _ hj, hslice, List.length_take]

/-- Witness for C6 at dsC6 with n = 3. -/
theorem C6_subtract_background_witness :
    (subtract_background dsC6 3).t = dsC6.t ∧
    (subtract_background dsC6 3).wavelengths = dsC6.wavelengths ∧
    (subtract_background dsC6 3).err = dsC6.err ∧
    ((subtract_background dsC6 3).data.getD 0 []).getD 0 0
      = (dsC6.data.getD 0 []).getD 0 0
        - ((dsC6.data.take (3 : ℤ).toNat).map (fun r => r.getD 0 0)).sum
          / ((min (3 : ℤ).toNat dsC6.data.length : ℕ) : ℚ) :=
  C6_subtract_background dsC6 3 (by norm_num) (by decide) (by decide)
    0 0 (by decide) (by decide)

theorem loaderAux_stops (tAxis : List ℚ) (scans : ℕ → ℕ) (k : ℕ)
    (hk : scans k = 0) :
    ∀ fuel i, i ≤ k → k < i + fuel → (∀ j, i ≤ j → j < k → 0 < scans j) →
      (loaderAux tAxis scans fuel i).2 = tAxis.take (k + 1) := by
  intro fuel
  induction fuel with
  | zero => intro i h1 h2 h3; omega
  | succ f ih =>
    intro i h1 h2 h3
    by_cases hik : i = k
    · subst hik
      simp [loaderAux, hk]
    · have hlt : i < k := lt_of_le_of_ne h1 hik
      have hpos : 0 < scans i := h3 i le_rfl hlt
      simp only [loaderAux, if_pos hpos]
      exact ih (i + 1) hlt (by omega) (fun j hj1 hj2 => h3 j (by omega) hj2)

/-- C5 counterexample: with waiting times [0, 1, 2] where only index 0 has a
scan, the loader truncates the axis to [0, 1] — the populated time plus the
first empty one — not to the populated times [0] alone. -/
theorem C5_counterexample :
    (loaderT [0, 1, 2] scansEx).2 = [(0 : ℚ), 1] ∧
      ([(0 : ℚ), 1] : List ℚ) ≠ [0] := by
  constructor
  · rfl
  · simp

/-- C5 as amended: when waiting-time index k is the first with zero scans,
reconstruction does not fail but assigns self.t = self.t[:k+1], so the
resulting axis keeps the leading populated waiting times plus the first
empty one (length k + 1, not k). -/
theorem C5_truncation (tAxis : List ℚ) (scans : ℕ → ℕ) (k : ℕ)
    (hk : k < tAxis.length) (hscan : scans k = 0)
    (hbefore : ∀ j, j < k → 0 < scans j) :
    (loaderT tAxis scans).2 = tAxis.take (k + 1) :=
  loaderAux_stops tAxis scans k hscan tAxis.length 0 (by omega) (by omega)
    (fun j _ hj => hbefore j hj)

/-- Witness for C5: axis [0, 1, 2] with index 1 the first empty one. -/
theorem C5_truncation_witness :
    (loaderT [0, 1, 2] scansEx).2 = ([0, 1, 2] : List ℚ).take (1 + 1) :=
  C5_truncation [0, 1, 2] scansEx 1 (by norm_num) rfl
    (fun j hj => by interval_cases j; simp [scansEx])

instance (a b : RDataSet) : Decidable (NoShare a b) := by
  unfold NoShare
  infer_instance

instance (ds : RDataSet) (c : ℕ) : Decidable (ds.below c) := by
  unfold RDataSet.below
  infer_instance

/-- C7 counterexample: cut_freqs passes self.t into the constructor, which
stores it unchanged, so the returned dataset holds the very same time-axis
array as the source — an in-place write through either is visible through
the other, violating the no-shared-storage claim. -/
theorem C7_counterexample :
    (cutFreqsR rdsEx 5).1.tId = rdsEx.tId ∧
      ¬ NoShare (cutFreqsR rdsEx 5).1 rdsEx := by
  constructor
  · rfl
  · decide

/-- C7 as amended: cut_times and bin_times return datasets sharing no array
with the source, but cut_freqs, bin_freqs and concat_datasets store the
source's time-axis array itself in the result, every other array of which is
freshly allocated. -/
theorem C7_aliasing (ds other : RDataSet) (c : ℕ) (hc : ds.below c) :
    NoShare (cutTimesR ds c).1 ds ∧
    NoShare (binTimesR ds c).1 ds ∧
    (cutFreqsR ds c).1.tId = ds.tId ∧
    (binFreqsR ds c).1.tId = ds.tId ∧
    (concatR ds other c).1.tId = ds.tId ∧
    (∀ i ∈ [(cutFreqsR ds c).1.wlId, (cutFreqsR ds c).1.wnId,
        (cutFreqsR ds c).1.dataId] ++ ((cutFreqsR ds c).1.errId).toList,
      i ∉ ds.ids) := by
  have hwl := hc ds.wlId (by simp [RDataSet.ids])
  have hwn := hc ds.wnId (by simp [RDataSet.ids])
  have ht := hc ds.tId (by simp [RDataSet.ids])
  have hdata := hc ds.dataId (by simp [RDataSet.ids])
  refine ⟨?_, ?_, rfl, rfl, rfl, ?_⟩
  · intro i hi hmem
    cases herr : ds.errId with
    | none =>
      simp [cutTimesR, mkR, RDataSet.ids, herr] at hi hmem
      omega
    | some e =>
      have he := hc e (by simp [RDataSet.ids, herr])
      simp [cutTimesR, mkR, RDataSet.ids, herr] at hi hmem
      omega
  · intro i hi hmem
    cases herr : ds.errId with
    | none =>
      simp [binTimesR, mkR, RDataSet.ids, herr] at hi hmem
      omega
    | some e =>
      have he := hc e (by simp [RDataSet.ids, herr])
      simp [binTimesR, mkR, RDataSet.ids, herr] at hi hmem
      omega
  · intro i hi hmem
    cases herr : ds.errId with
    | none =>
      simp [cutFreqsR, mkR, RDataSet.ids, herr] at hi hmem
      omega
    | some e =>
      have he := hc e (by simp [RDataSet.ids, herr])
      simp [cutFreqsR, mkR, RDataSet.ids, herr] at hi hmem
      omega

/-- Witness for C7: the five arrays of rdsEx carry ids 0..4, all below 5. -/
theorem C7_aliasing_witness :
    NoShare (cutTimesR rdsEx 5).1 rdsEx ∧
    NoShare (binTimesR rdsEx 5).1 rdsEx ∧
    (cutFreqsR rdsEx 5).1.tId = rdsEx.tId ∧
    (binFreqsR rdsEx 5).1.tId = rdsEx.tId ∧
    (concatR rdsEx rdsEx 5).1.tId = rdsEx.tId ∧
    (∀ i ∈ [(cutFreqsR rdsEx 5).1.wlId, (cutFreqsR rdsEx 5).1.wnId,
        (cutFreqsR rdsEx 5).1.dataId] ++ ((cutFreqsR rdsEx 5).1.errId).toList,
      i ∉ rdsEx.ids) :=
  C7_aliasing rdsEx rdsEx 5 (by decide)

/-- C9 counterexample: the string "," is composed of the float characters
plus a comma, so parse_str maps float() over its comma-split — and float('')
raises an uncaught ValueError: parse_str does not return a value for every
input string. -/
theorem C9_counterexample :
    parse_str [','] = Except.error PyErr.valueError ∧
      ([','].all (fun c => (',' :: floatChars).contains c)) = true := by
  constructor
  · rfl
  · decide

/-- C9 as amended: parse_str returns an int for nonempty all-digit strings;
for other strings over the float characters it returns the parsed float when
float() accepts them and the unchanged string otherwise (the try/except
guard); the literals TRUE and FALSE parse to booleans; every comma-free
string produces a value (no exception); but a string over the float
characters plus comma whose comma-separated pieces are not all
float-parsable raises an uncaught ValueError. -/
theorem C9_parse_str :
    (∀ s : List Char, isnumericA s = true →
      parse_str s = Except.ok (PVal.intV (digitsToNat s))) ∧
    (∀ s : List Char, s.all (fun c => floatChars.contains c) = true →
      isnumericA s = false →
      (∀ q, pyFloat s = some q → parse_str s = Except.ok (PVal.floatV q)) ∧
      (pyFloat s = none → parse_str s = Except.ok (PVal.strV s))) ∧
    (∀ s : List Char, (∀ c ∈ s, c ≠ ',') →
      ∃ v, parse_str s = Except.ok v) ∧
    parse_str "TRUE".toList = Except.ok (PVal.boolV true) ∧
    parse_str "FALSE".toList = Except.ok (PVal.boolV false) ∧
    (∀ s : List Char,
      s.all (fun c => (',' :: floatChars).contains c) = true →
      isnumericA s = false →
      s.all (fun c => floatChars.contains c) = false →
      floatsOf (s.splitOn ',') = none →
      parse_str s = Except.error PyErr.valueError) := by
  refine ⟨?_, ?_, ?_, rfl, rfl, ?_⟩
  · intro s h
    simp only [parse_str, h, reduceIte]
  · intro s h2 h1
    constructor
    · intro q hq
      simp only [parse_str, h1, h2, hq, reduceIte]
      rfl
    · intro hq
      simp only [parse_str, h1, h2, hq, reduceIte]
      rfl
  · intro s hnc
    by_cases h1 : isnumericA s = true
    · exact ⟨PVal.intV (digitsToNat s), by
        simp only [parse_str, h1, reduceIte]⟩
    · have h1f : isnumericA s = false := by
        cases h : isnumericA s
        · rfl
        · exact absurd h h1
      by_cases h2 : s.all (fun c => floatChars.contains c) = true
      · cases hp : pyFloat s with
        | none =>
          exact ⟨PVal.strV s, by
            simp only [parse_str, h1f, h2, hp, reduceIte]
            rfl⟩
        | some q =>
          exact ⟨PVal.floatV q, by
            simp only [parse_str, h1f, h2, hp, reduceIte]
            rfl⟩
      · have h2f : s.all (fun c => floatChars.contains c) = false := by
          cases h : s.all (fun c => floatChars.contains c)
          · rfl
          · exact absurd h h2
        have h3f : s.all (fun c => (',' :: floatChars).contains c)
            = false := by
          cases h : s.all (fun c => (',' :: floatChars).contains c)
          · rfl
          · exfalso
            apply h2
            rw [List.all_eq_true] at h ⊢
            intro c hcs
            have hc := h c hcs
            have hne : c ≠ ',' := hnc c hcs
            simpa [hne] using hc
        simp only [parse_str, h1f, h2f, h3f, reduceIte]
        split_ifs <;> exact ⟨_, rfl⟩
  · intro s h3 h1 h2 hf
    simp only [parse_str, h1, h2, h3, hf, reduceIte]
    rfl

/-- Witness for C9 on the digit string "42". -/
theorem C9_parse_str_witness :
    parse_str ['4', '2'] = Except.ok (PVal.intV (digitsToNat ['4', '2'])) :=
  C9_parse_str.1 ['4', '2'] (by decide)

theorem foldl_min_le_init (xs : List ℚ) : ∀ a : ℚ, xs.foldl min a ≤ a := by
  induction xs with
  | nil => intro a; simp
  | cons x t ih =>
    intro a
    exact le_trans (ih (min a x)) (min_le_left a x)

theorem foldl_min_le_mem (xs : List ℚ) :
    ∀ (a x : ℚ), x ∈ xs → xs.foldl min a ≤ x := by
  induction xs with
  | nil => intro a x hx; simp at hx
  | cons y t ih =>
    intro a x hx
    rcases List.mem_cons.mp hx with h | h
    · subst h
      exact le_trans (foldl_min_le_init t (min a x)) (min_le_right a x)
    · exact ih (min a y) x h

theorem le_foldl_max_init (xs : List ℚ) : ∀ a : ℚ, a ≤ xs.foldl max a := by
  induction xs with
  | nil => intro a; simp
  | cons x t ih =>
    intro a
    exact le_trans (le_max_left a x) (ih (max a x))

theorem mem_le_foldl_max (xs : List ℚ) :
    ∀ (a x : ℚ), x ∈ xs → x ≤ xs.foldl max a := by
  induction xs with
  | nil => intro a x hx; simp at hx
  | cons y t ih =>
    intro a x hx
    rcases List.mem_cons.mp hx with h | h
    · subst h
      exact le_trans (le_max_right a x) (le_foldl_max_init t (max a x))
    · exact ih (max a y) x h

theorem npMin_le_mem {arr : List ℚ} {x : ℚ} (hx : x ∈ arr) :
    npMin arr ≤ x := by
  cases arr with
  | nil => simp at hx
  | cons y t =>
    rcases List.mem_cons.mp hx with h | h
    · subst h; exact foldl_min_le_init t x
    · exact foldl_min_le_mem t y x h

theorem mem_le_npMax {arr : List ℚ} {x : ℚ} (hx : x ∈ arr) :
    x ≤ npMax arr := by
  cases arr with
  | nil => simp at hx
  | cons y t =>
    rcases List.mem_cons.mp hx with h | h
    · subst h; exact le_foldl_max_init t x
    · exact mem_le_foldl_max t y x h

theorem searchsorted_le_of_le (arr : List ℚ) {v w : ℚ} (h : v ≤ w) :
    searchsorted arr v ≤ searchsorted arr w :=
  List.countP_mono_left (fun x _ hx => by
    simp only [decide_eq_true_eq] at hx ⊢
    exact lt_of_lt_of_le hx h)

theorem searchsorted_eq_zero (arr : List ℚ) (v : ℚ)
    (h : ∀ x ∈ arr, ¬ (x < v)) : searchsorted arr v = 0 :=
  List.countP_eq_zero.mpr (fun x hx => by simpa using h x hx)

theorem searchsorted_eq_length (arr : List ℚ) (v : ℚ)
    (h : ∀ x ∈ arr, x < v) : searchsorted arr v = arr.length :=
  List.countP_eq_length.mpr (fun x hx => by simpa using h x hx)

theorem length_linspace (a b : ℚ) (n : ℕ) :
    (linspace a b n).length = n + 1 := by
  unfold linspace
  rw [List.length_map, List.length_range]

theorem linspace_getD (a b : ℚ) (n : ℕ) {i : ℕ} (hi : i ≤ n) :
    (linspace a b n).getD i 0 = a + (b - a) * i / n := by
  have hlen : i < (linspace a b n).length := by rw [length_linspace]; omega
  rw [List.getD_eq_getElem _ _ hlen]
  unfold linspace
  rw [List.getElem_map, List.getElem_range]

theorem length_binIdx (arr : List ℚ) (n : ℕ) :
    (binIdx arr n).length = n + 1 := by
  simp [binIdx, length_linspace]

theorem binIdx_getD (arr : List ℚ) (n : ℕ) {i : ℕ} (hi : i ≤ n) :
    (binIdx arr n).getD i 0
      = searchsorted arr (npMin arr - 1/500
          + (npMax arr + 1/500 - (npMin arr - 1/500)) * i / n) := by
  have hlen : i < (binIdx arr n).length := by rw [length_binIdx]; omega
  rw [List.getD_eq_getElem _ _ hlen]
  simp only [binIdx, List.getElem_map]
  congr 1
  have hl : i < (linspace (npMin arr - 1/500) (npMax arr + 1/500)
      n).length := by
    rw [length_linspace]; omega
  rw [← List.getD_eq_getElem _ 0 hl, linspace_getD _ _ _ hi]

theorem binIdx_first (arr : List ℚ) (n : ℕ) :
    (binIdx arr n).getD 0 0 = 0 := by
  rw [binIdx_getD arr n (Nat.zero_le n)]
  have harg : npMin arr - 1/500
      + (npMax arr + 1/500 - (npMin arr - 1/500)) * ((0 : ℕ) : ℚ) / n
      = npMin arr - 1/500 := by
    push_cast
    ring
  rw [harg]
  apply searchsorted_eq_zero
  intro x hx hlt
  have := npMin_le_mem hx
  linarith

theorem binIdx_last (arr : List ℚ) (n : ℕ) (hn : 0 < n) :
    (binIdx arr n).getD n 0 = arr.length := by
  rw [binIdx_getD arr n le_rfl]
  have hne : (n : ℚ) ≠ 0 := Nat.cast_ne_zero.mpr hn.ne'
  have harg : npMin arr - 1/500
      + (npMax arr + 1/500 - (npMin arr - 1/500)) * (n : ℚ) / n
      = npMax arr + 1/500 := by
    field_simp
    ring
  rw [harg]
  apply searchsorted_eq_length
  intro x hx
  have := mem_le_npMax hx
  linarith

theorem binIdx_mono (arr : List ℚ) (n : ℕ) (hne : arr ≠ [])
    {i : ℕ} (hi : i < n) :
    (binIdx arr n).getD i 0 ≤ (binIdx arr n).getD (i + 1) 0 := by
  rw [binIdx_getD arr n (le_of_lt hi), binIdx_getD arr n hi]
  apply searchsorted_le_of_le
  have hmm : npMin arr ≤ npMax arr := by
    cases arr with
    | nil => exact absurd rfl hne
    | cons y t =>
      exact le_trans (npMin_le_mem (List.mem_cons_self y t))
        (mem_le_npMax (List.mem_cons_self y t))
  have hd : (0 : ℚ) ≤ npMax arr + 1/500 - (npMin arr - 1/500) := by
    linarith
  have hncast : (0 : ℚ) ≤ (n : ℚ) := Nat.cast_nonneg n
  push_cast
  gcongr
  linarith

theorem zipWith_recip_mul (es xs : List ℚ) :
    List.zipWith (· * ·) (es.map (fun e => 1 / e)) xs
      = List.zipWith (fun x e => x / e) xs es := by
  induction es generalizing xs with
  | nil => cases xs <;> rfl
  | cons e t ih =>
    cases xs with
    | nil => rfl
    | cons x xt =>
      simp only [List.map_cons, List.zipWith_cons_cons, ih]
      congr 1
      rw [one_div, inv_mul_eq_div]

theorem wavg_recip (xs es : List ℚ) :
    wavg xs (es.map (fun e => 1 / e))
      = (List.zipWith (fun x e => x / e) xs es).sum
        / ((es.map (fun e => 1 / e)).sum) := by
  unfold wavg
  rw [zipWith_recip_mul]

theorem binFreqsDataW_entry (arr : List ℚ) (n : ℕ)
    (data errA : List (List ℚ)) {j i : ℕ} (hj : j < data.length)
    (hjE : j < errA.length) (hi : i < n) :
    ((binFreqsDataW arr n data errA).getD j []).getD i 0
      = (List.zipWith (fun x e => x / e)
          (binSlice arr n i (data.getD j []))
          (binSlice arr n i (errA.getD j []))).sum
        / (((binSlice arr n i (errA.getD j [])).map (fun e => 1 / e)).sum)
    := by
  have hjz : j < (data.zip errA).length := by
    rw [List.length_zip]; exact lt_min hj hjE
  have hrow : (binFreqsDataW arr n data errA).getD j []
      = (List.range n).map (fun k => wavg (binSlice arr n k data[j])
          (List.map (fun e => 1 / e) (binSlice arr n k errA[j]))) := by
    unfold binFreqsDataW
    rw [List.getD_eq_getElem (List.map _ (data.zip errA)) []
      (by simpa using hjz)]
    rw [List.getElem_map, List.getElem_zip]
  rw [hrow]
  have hi2 : i < ((List.range n).map (fun k => wavg (binSlice arr n k data[j])
      (List.map (fun e => 1 / e) (binSlice arr n k errA[j])))).length := by
    simpa using hi
  rw [List.getD_eq_getElem _ _ hi2, List.getElem_map, List.getElem_range]
  rw [wavg_recip]
  rw [List.getD_eq_getElem data _ hj, List.getD_eq_getElem errA _ hjE]

theorem length_binFreqsWl (arr : List ℚ) (n : ℕ) :
    (binFreqsWl arr n).length = n := by
  simp [binFreqsWl]

theorem length_binFreqsWlFinal (ds : DataSet) (n : ℕ) (u : String) :
    (binFreqsWlFinal ds n u).length = n := by
  unfold binFreqsWlFinal
  by_cases hu : u = "cm" <;> simp [hu, length_binFreqsWl]

theorem mkDataSet_ok_exists {wl t : List ℚ} {data : List (List ℚ)}
    {err : Option (List (List ℚ))} {name : Option String} {fu : String}
    {du : Option String} (h : shapeOkB wl t data = true) :
    ∃ d, mkDataSet wl t data err name fu du = Except.ok d ∧
      d.wavelengths.length = wl.length ∧ d.t = t := by
  refine ⟨_, by unfold mkDataSet; rw [if_pos h], ?_, rfl⟩
  by_cases hfu : fu = "nm" <;>
    simp [hfu, permute, argsortQ, List.length_insertionSort,
      List.length_range]

theorem bin_freqs_some {ds : DataSet} {n : ℕ} {u : String}
    {E : List (List ℚ)} (hE : ds.err = some E)
    (hne : ¬ ((binAxis ds u).length = 0)) :
    bin_freqs ds n u =
      if binZeroWeight (binAxis ds u) n E then
        Except.error PyErr.zeroDivision
      else mkDataSet (binFreqsWlFinal ds n u) ds.t
        (binFreqsDataW (binAxis ds u) n ds.data E) none none u
        (some ds.disp_freq_unit) := by
  unfold bin_freqs
  rw [if_neg hne, hE]

theorem bin_freqs_none {ds : DataSet} {n : ℕ} {u : String}
    (hE : ds.err = none) (hne : ¬ ((binAxis ds u).length = 0)) :
    bin_freqs ds n u = mkDataSet (binFreqsWlFinal ds n u) ds.t
      (binFreqsDataU (binAxis ds u) n ds.data) none none u
      (some ds.disp_freq_unit) := by
  unfold bin_freqs
  rw [if_neg hne, hE]

theorem shapeOk_binW (ds : DataSet) (n : ℕ) (u : String)
    (E : List (List ℚ)) (hWF : ds.WF) (hElen : E.length = ds.data.length) :
    shapeOkB (binFreqsWlFinal ds n u) ds.t
      (binFreqsDataW (binAxis ds u) n ds.data E) = true := by
  rw [shapeOkB_iff]
  obtain ⟨-, hlen, -⟩ := hWF
  constructor
  · unfold binFreqsDataW
    rw [List.length_map, List.length_zip, hElen, min_self, hlen]
  · intro r hr
    unfold binFreqsDataW at hr
    obtain ⟨p, hp, rfl⟩ := List.mem_map.mp hr
    rw [List.length_map, List.length_range, length_binFreqsWlFinal]

theorem shapeOk_binU (ds : DataSet) (n : ℕ) (u : String) (hWF : ds.WF) :
    shapeOkB (binFreqsWlFinal ds n u) ds.t
      (binFreqsDataU (binAxis ds u) n ds.data) = true := by
  rw [shapeOkB_iff]
  obtain ⟨-, hlen, -⟩ := hWF
  constructor
  · unfold binFreqsDataU
    rw [List.length_map, hlen]
  · intro r hr
    unfold binFreqsDataU at hr
    obtain ⟨p, hp, rfl⟩ := List.mem_map.mp hr
    rw [List.length_map, List.length_range, length_binFreqsWlFinal]

theorem binZeroWeight_of_empty_bin (arr : List ℚ) (n : ℕ)
    (E : List (List ℚ)) (hEne : E ≠ []) {i : ℕ} (hi : i < n)
    (hix : (binIdx arr n).getD i 0 = (binIdx arr n).getD (i + 1) 0) :
    binZeroWeight arr n E = true := by
  unfold binZeroWeight
  rw [List.any_eq_true]
  refine ⟨i, List.mem_range.mpr hi, ?_⟩
  rw [List.any_eq_true]
  cases E with
  | nil => exact absurd rfl hEne
  | cons erow tail =>
    refine ⟨erow, List.mem_cons_self _ _, ?_⟩
    have hslice : binSlice arr n i erow = [] := by
      unfold binSlice
      rw [hix]
      simp
    rw [hslice]
    simp

/-- C4 counterexample: on a two-channel dataset with error [[1, 2]] and one
bin, bin_freqs averages the row [0, 1] with weights 1/err = [1, 1/2] and
produces the entry 1/3, while the inverse-variance weighting the claim
states would give 1/5 — so the source does not weight by inverse
variance. -/
theorem C4_counterexample :
    Except.map DataSet.data (bin_freqs dsC4 1 "nm") = Except.ok [[1/3]] ∧
      invVarAvg [0, 1] [1, 2] = 1/5 ∧ ((1 : ℚ)/3) ≠ 1/5 := by
  refine ⟨?_, by norm_num [invVarAvg], by norm_num⟩
  norm_num [bin_freqs, binAxis, dsC4, binZeroWeight, binFreqsDataW,
    binFreqsWlFinal, binFreqsWl, binSlice, binIdx, linspace, searchsorted,
    npMin, npMax, wavg, npMean, mkDataSet, shapeOkB, argsortQ, permute,
    List.insertionSort, List.orderedInsert, List.range, List.range.loop,
    List.countP, List.countP.go, Except.map]
  rfl

/-- C4 as amended: bin_freqs partitions the channel indices of the binning
axis into n bins whose searchsorted boundaries start at 0, end at the
channel count and are monotone (every channel in exactly one bin, edges from
linspace(min − 0.002, max + 0.002, n + 1)); with an error array present the
bin averages are weighted by the reciprocal 1/err — not by inverse
variance — and the call returns a dataset with n spectral points when no
weight slice sums to zero; an empty bin has a zero weight sum and raises
ZeroDivisionError (there is no EmptyBinError); without an error array the
bins are plain means and the call succeeds regardless. -/
theorem C4_bin_freqs (ds : DataSet) (n : ℕ) (u : String) (hn : 0 < n)
    (hWF : ds.WF) (hne : binAxis ds u ≠ []) :
    ((binIdx (binAxis ds u) n).getD 0 0 = 0 ∧
      (binIdx (binAxis ds u) n).getD n 0 = (binAxis ds u).length ∧
      ∀ i, i < n → (binIdx (binAxis ds u) n).getD i 0
        ≤ (binIdx (binAxis ds u) n).getD (i + 1) 0) ∧
    (∀ E, ds.err = some E → E.length = ds.data.length →
      binZeroWeight (binAxis ds u) n E = false →
      ∃ d, bin_freqs ds n u = Except.ok d ∧
        d.wavelengths.length = n ∧ d.t = ds.t) ∧
    (∀ E, ds.err = some E →
      ∀ j i, j < ds.data.length → j < E.length → i < n →
      ((binFreqsDataW (binAxis ds u) n ds.data E).getD j []).getD i 0
        = (List.zipWith (fun x e => x / e)
            (binSlice (binAxis ds u) n i (ds.data.getD j []))
            (binSlice (binAxis ds u) n i (E.getD j []))).sum
          / (((binSlice (binAxis ds u) n i (E.getD j [])).map
              (fun e => 1 / e)).sum)) ∧
    (∀ E, ds.err = some E → E ≠ [] → ∀ i, i < n →
      (binIdx (binAxis ds u) n).getD i 0
        = (binIdx (binAxis ds u) n).getD (i + 1) 0 →
      bin_freqs ds n u = Except.error PyErr.zeroDivision) ∧
    (ds.err = none → ∃ d, bin_freqs ds n u = Except.ok d ∧
      d.wavelengths.length = n ∧ d.t = ds.t) := by
  have hne0 : ¬ ((binAxis ds u).length = 0) := by
    simpa [List.length_eq_zero] using hne
  refine ⟨⟨binIdx_first _ n, binIdx_last _ n hn,
    fun i hi => binIdx_mono _ n hne hi⟩, ?_, ?_, ?_, ?_⟩
  · intro E hE hElen hz
    obtain ⟨d, hd, hlen, ht⟩ :=
      mkDataSet_ok_exists (shapeOk_binW ds n u E hWF hElen)
    refine ⟨d, ?_, by rw [hlen, length_binFreqsWlFinal], ht⟩
    rw [bin_freqs_some hE hne0, if_neg (by rw [hz]; simp)]
    exact hd
  · intro E hE j i hj hjE hi
    exact binFreqsDataW_entry _ n ds.data E hj hjE hi
  · intro E hE hEne i hi hix
    rw [bin_freqs_some hE hne0,
      if_pos (binZeroWeight_of_empty_bin _ n E hEne hi hix)]
  · intro hE
    obtain ⟨d, hd, hlen, ht⟩ := mkDataSet_ok_exists (shapeOk_binU ds n u hWF)
    refine ⟨d, ?_, by rw [hlen, length_binFreqsWlFinal], ht⟩
    rw [bin_freqs_none hE hne0]
    exact hd

/-- Witness for C4 at the two-channel dataset dsC4 with one bin. -/
theorem C4_bin_freqs_witness :
    (((binIdx (binAxis dsC4 "nm") 1).getD 0 0 = 0 ∧
      (binIdx (binAxis dsC4 "nm") 1).getD 1 0
        = (binAxis dsC4 "nm").length ∧
      ∀ i, i < 1 → (binIdx (binAxis dsC4 "nm") 1).getD i 0
        ≤ (binIdx (binAxis dsC4 "nm") 1).getD (i + 1) 0) ∧
    (∀ E, dsC4.err = some E → E.length = dsC4.data.length →
      binZeroWeight (binAxis dsC4 "nm") 1 E = false →
      ∃ d, bin_freqs dsC4 1 "nm" = Except.ok d ∧
        d.wavelengths.length = 1 ∧ d.t = dsC4.t) ∧
    (∀ E, dsC4.err = some E →
      ∀ j i, j < dsC4.data.length → j < E.length → i < 1 →
      ((binFreqsDataW (binAxis dsC4 "nm") 1 dsC4.data E).getD j []).getD i 0
        = (List.zipWith (fun x e => x / e)
            (binSlice (binAxis dsC4 "nm") 1 i (dsC4.data.getD j []))
            (binSlice (binAxis dsC4 "nm") 1 i (E.getD j []))).sum
          / (((binSlice (binAxis dsC4 "nm") 1 i (E.getD j [])).map
              (fun e => 1 / e)).sum)) ∧
    (∀ E, dsC4.err = some E → E ≠ [] → ∀ i, i < 1 →
      (binIdx (binAxis dsC4 "nm") 1).getD i 0
        = (binIdx (binAxis dsC4 "nm") 1).getD (i + 1) 0 →
      bin_freqs dsC4 1 "nm" = Except.error PyErr.zeroDivision) ∧
    (dsC4.err = none → ∃ d, bin_freqs dsC4 1 "nm" = Except.ok d ∧
      d.wavelengths.length = 1 ∧ d.t = dsC4.t)) :=
  C4_bin_freqs dsC4 1 "nm" (by norm_num) (by decide) (by decide)

end Skultrafast
